import Mathlib

/-
Verification of the surrealx extension layer (src/surrealx/src).

The development shallowly embeds the core data model and operations:
  events.rs    : EventType, Event, Event::pattern, EventRegistry::register,
                 EventRegistry::emit (lookup order, invocation loop, and its
                 lock-action trace)
  cache.rs     : MemoryCacheProvider::{cleanup_expired, get, set, delete,
                 exists, clear}
  functions.rs : FunctionRegistry::register (Arc::get_mut + expect behaviour)
  server.rs    : SurrealX::build (namespaced function registration,
                 listener registration)
  error.rs     : the Error enum

Rust HashMap values are embedded as association lists with unique keys;
only lookup, insert-overwrite, remove, keys and retain/filter are used by
the code, and those are modelled one-to-one.  Dynamic trait objects
(listeners, function handlers) are identified by natural-number ids, with
their fallible behaviour supplied as an explicit environment function.
Time (chrono::Utc::now().timestamp(), an i64) is an explicit Int parameter:
each separate now() call in the source is a separate parameter.
serde_json::Value is embedded as SJson; no claim computes with data
payloads, so its numeric leaf is an Int.
-/

set_option autoImplicit false

namespace SurrealX

/-- Embedding of serde_json::Value (events.rs, cache.rs: the data payloads). -/
inductive SJson where
  | null
  | bool (b : Bool)
  | num (n : Int)
  | str (s : String)
  | arr (xs : List SJson)
  | obj (fields : List (String × SJson))

/-- Embedding of EventType (events.rs lines 12-19). -/
inductive EventType where
  | Create
  | Update
  | Delete
  | Custom (name : String)
deriving DecidableEq

/-- Embedding of Event (events.rs lines 22-34). -/
structure Event where
  eventType : EventType
  table : String
  recordId : Option String
  data : SJson
  timestamp : Int

/-- Embedding of Event::pattern (events.rs lines 55-61):
format of table and record id when the id is present, else table with
a wildcard suffix. -/
def Event.pattern (e : Event) : String :=
  match e.recordId with
  | some id => e.table ++ ":" ++ id
  | none => e.table ++ ":*"

/-- Embedding of the Error enum (error.rs lines 7-39).  The payloads of
Serialization, Io and Other are reduced to their display strings. -/
inductive Error where
  | Function (msg : String)
  | Event (msg : String)
  | Cache (msg : String)
  | Server (msg : String)
  | Config (msg : String)
  | NotFound (msg : String)
  | Serialization (msg : String)
  | IoError (msg : String)
  | Other (msg : String)
deriving DecidableEq

/-- Association-list lookup: embedding of HashMap::get. -/
def lookupA {α : Type} : List (String × α) → String → Option α
  | [], _ => none
  | kv :: rest, k => if kv.1 = k then some kv.2 else lookupA rest k

/-- Association-list insert-or-overwrite: embedding of HashMap::insert. -/
def insertA {α : Type} : List (String × α) → String → α → List (String × α)
  | [], k, v => [(k, v)]
  | kv :: rest, k, v => if kv.1 = k then (k, v) :: rest else kv :: insertA rest k v

/-- Association-list removal: embedding of HashMap::remove. -/
def eraseA {α : Type} : List (String × α) → String → List (String × α)
  | [], _ => []
  | kv :: rest, k => if kv.1 = k then eraseA rest k else kv :: eraseA rest k

/-- Association-list key sequence: embedding of HashMap::keys. -/
def keysA {α : Type} (m : List (String × α)) : List String :=
  m.map Prod.fst

theorem lookupA_insertA {α : Type} (m : List (String × α)) (k : String) (v : α)
    (k' : String) :
    lookupA (insertA m k v) k' = if k' = k then some v else lookupA m k' := by
  induction m with
  | nil =>
    simp only [insertA, lookupA]
    by_cases h : k' = k
    · subst h; simp
    · rw [if_neg (fun hc : k = k' => h hc.symm), if_neg h]
  | cons kv rest ih =>
    obtain ⟨a, b⟩ := kv
    simp only [insertA]
    by_cases hak : a = k
    · subst hak
      simp only [if_pos rfl, lookupA]
      by_cases h : k' = a
      · subst h; simp
      · have h2 : ¬a = k' := fun hc => h hc.symm
        simp [h, h2]
    · simp only [if_neg hak, lookupA]
      by_cases h : a = k'
      · have hne : ¬k' = k := fun hc => hak (h.trans hc)
        simp [h, hne]
      · simp [h, ih]

theorem lookupA_eraseA_self {α : Type} (m : List (String × α)) (k : String) :
    lookupA (eraseA m k) k = none := by
  induction m with
  | nil => simp [eraseA, lookupA]
  | cons kv rest ih =>
    obtain ⟨a, b⟩ := kv
    simp only [eraseA]
    by_cases hak : a = k
    · simp [hak, ih]
    · simp [lookupA, hak, ih]

theorem lookupA_eraseA_ne {α : Type} (m : List (String × α)) (k k' : String)
    (h : k' ≠ k) : lookupA (eraseA m k) k' = lookupA m k' := by
  induction m with
  | nil => simp [eraseA]
  | cons kv rest ih =>
    obtain ⟨a, b⟩ := kv
    simp only [eraseA]
    by_cases hak : a = k
    · have hne : ¬a = k' := fun hc => h (hc.symm.trans hak)
      have hne2 : ¬k = k' := fun hc => h hc.symm
      simp [lookupA, hak, hne, hne2, ih]
    · simp [lookupA, hak, ih]

theorem eraseA_eraseA {α : Type} (m : List (String × α)) (k : String) :
    eraseA (eraseA m k) k = eraseA m k := by
  induction m with
  | nil => simp [eraseA]
  | cons kv rest ih =>
    obtain ⟨a, b⟩ := kv
    by_cases hak : a = k <;> simp [eraseA, hak, ih]

theorem lookupA_eq_none_of_not_mem_keysA {α : Type} (m : List (String × α))
    (k : String) (h : k ∉ keysA m) : lookupA m k = none := by
  induction m with
  | nil => simp [lookupA]
  | cons kv rest ih =>
    obtain ⟨a, b⟩ := kv
    simp only [keysA, List.map_cons, List.mem_cons] at h
    push_neg at h
    have hak : ¬a = k := fun hc => h.1 hc.symm
    simp [lookupA, hak, ih (by simpa [keysA] using h.2)]

theorem lookupA_isSome_iff_mem_keysA {α : Type} (m : List (String × α))
    (k : String) : (lookupA m k).isSome = true ↔ k ∈ keysA m := by
  induction m with
  | nil => simp [lookupA, keysA]
  | cons kv rest ih =>
    obtain ⟨a, b⟩ := kv
    by_cases hak : a = k
    · subst hak; simp [lookupA, keysA]
    · have : ¬k = a := fun hc => hak hc.symm
      simp [lookupA, keysA, hak, this, ih]

/-
Event registry (events.rs lines 98-171).  The pattern map
HashMap of String keyed lists of Arc trait objects is embedded as an
association list from pattern to list of listener ids (Nat); a listener's
fallible on_event behaviour is an explicit environment
beh : Nat to Event to Except Error Unit.
-/

/-- Embedding of EventRegistry::register / register_arc (events.rs lines
113-131): listeners.entry(pattern).or_insert_with(Vec::new).push(listener),
appending the listener to the pattern's bucket, creating it if absent. -/
def pushListener : List (String × List Nat) → String → Nat → List (String × List Nat)
  | [], p, l => [(p, [l])]
  | kv :: rest, p, l =>
    if kv.1 = p then (kv.1, kv.2 ++ [l]) :: rest else kv :: pushListener rest p l

/-- Bucket of an event registry under one pattern, empty when absent
(the listeners.get lookups in emit, events.rs lines 142-155). -/
def findListeners (m : List (String × List Nat)) (p : String) : List Nat :=
  (lookupA m p).getD []

/-- An event registry obtained by a sequence of register calls starting
from EventRegistry::new (events.rs lines 105-109). -/
def buildEReg (regs : List (String × Nat)) : List (String × List Nat) :=
  regs.foldl (fun acc pr => pushListener acc pr.1 pr.2) []

/-- The listener gathering of EventRegistry::emit (events.rs lines
135-155): exact bucket of event.pattern(), then the table wildcard
bucket, then the global bucket, concatenated without deduplication. -/
def emitGather (m : List (String × List Nat)) (e : Event) : List Nat :=
  findListeners m e.pattern ++ findListeners m (e.table ++ ":*") ++ findListeners m "*"

/-- The invocation loop of EventRegistry::emit (events.rs lines 158-163):
listeners invoked sequentially, the first error aborting the rest via the
question-mark operator.  The first component is the trace of listeners
whose on_event was invoked, the second the Result of emit. -/
def notifyAll (beh : Nat → Event → Except Error Unit) (e : Event) :
    List Nat → List Nat × Except Error Unit
  | [] => ([], Except.ok ())
  | l :: rest =>
    match beh l e with
    | Except.ok _ => ((notifyAll beh e rest).1.cons l, (notifyAll beh e rest).2)
    | Except.error err => ([l], Except.error err)

/-- Embedding of EventRegistry::emit (events.rs lines 134-164): gather in
three passes, then invoke sequentially, fail-fast. -/
def emit (beh : Nat → Event → Except Error Unit) (m : List (String × List Nat))
    (e : Event) : List Nat × Except Error Unit :=
  notifyAll beh e (emitGather m e)

theorem findListeners_pushListener (m : List (String × List Nat)) (p : String)
    (l : Nat) (q : String) :
    findListeners (pushListener m p l) q =
      if q = p then findListeners m q ++ [l] else findListeners m q := by
  induction m with
  | nil =>
    simp only [pushListener, findListeners, lookupA]
    by_cases h : q = p
    · subst h; simp
    · have h2 : ¬p = q := fun hc => h hc.symm
      simp [h, h2]
  | cons kv rest ih =>
    obtain ⟨a, ls⟩ := kv
    simp only [pushListener]
    by_cases hap : a = p
    · subst hap
      simp only [if_pos rfl, findListeners, lookupA]
      by_cases h : a = q
      · subst h; simp
      · have h2 : ¬q = a := fun hc => h hc.symm
        simp [h, h2, findListeners]
    · simp only [if_neg hap, findListeners, lookupA]
      by_cases h : a = q
      · have hne : ¬q = p := fun hc => hap (h.trans hc)
        simp [h, hne]
      · simpa [h, findListeners] using ih

theorem findListeners_buildEReg_aux (regs : List (String × Nat))
    (acc : List (String × List Nat)) (p : String) :
    findListeners (regs.foldl (fun a pr => pushListener a pr.1 pr.2) acc) p =
      findListeners acc p ++ (regs.filter (fun pr => pr.1 = p)).map Prod.snd := by
  induction regs generalizing acc with
  | nil => simp
  | cons pr rest ih =>
    obtain ⟨q, l⟩ := pr
    simp only [List.foldl_cons, List.filter_cons]
    rw [ih]
    by_cases h : q = p
    · subst h
      simp [findListeners_pushListener]
    · have h2 : ¬p = q := fun hc => h hc.symm
      simp [findListeners_pushListener, h, h2]

theorem findListeners_buildEReg (regs : List (String × Nat)) (p : String) :
    findListeners (buildEReg regs) p =
      (regs.filter (fun pr => pr.1 = p)).map Prod.snd := by
  have h := findListeners_buildEReg_aux regs [] p
  simpa [buildEReg, findListeners, lookupA] using h

theorem notifyAll_all_ok (beh : Nat → Event → Except Error Unit) (e : Event)
    (L : List Nat) (h : ∀ l ∈ L, beh l e = Except.ok ()) :
    notifyAll beh e L = (L, Except.ok ()) := by
  induction L with
  | nil => rfl
  | cons l rest ih =>
    have hl := h l (by simp)
    simp [notifyAll, hl, ih (fun x hx => h x (by simp [hx]))]

theorem notifyAll_first_error (beh : Nat → Event → Except Error Unit) (e : Event)
    (L : List Nat) (k : Nat) (l : Nat) (err : Error)
    (hget : L.get? k = some l) (herr : beh l e = Except.error err)
    (hpre : ∀ j l', j < k → L.get? j = some l' → beh l' e = Except.ok ()) :
    notifyAll beh e L = (L.take (k + 1), Except.error err) := by
  induction L generalizing k with
  | nil => simp [List.get?] at hget
  | cons l0 rest ih =>
    cases k with
    | zero =>
      simp [List.get?] at hget
      subst hget
      simp [notifyAll, herr, List.take]
    | succ k' =>
      have h0 : beh l0 e = Except.ok () := hpre 0 l0 (Nat.succ_pos k') rfl
      have hrest := ih k' hget
        (fun j l' hj hg => hpre (j + 1) l' (Nat.succ_lt_succ hj) hg)
      simp [notifyAll, h0, hrest, List.take]

/-
Lock-action trace of EventRegistry::emit.  In the source (events.rs lines
134-164) the guard of self.listeners.read().await is bound at line 135 and
is dropped only when the function returns, i.e. after the invocation loop
of lines 158-161 (on the early question-mark return the guard is likewise
dropped at that return point, after the failing invocation).  The trace
records the read-lock acquisition, each on_event invocation, and the point
where the guard is dropped, in the order the source performs them.
-/

/-- One observable action of emit on the registry's RwLock, or a listener
invocation. -/
inductive EmitStep where
  | acquireRead
  | releaseRead
  | invoke (l : Nat)

/-- Recognizer for the release action. -/
def EmitStep.isRelease : EmitStep → Bool
  | EmitStep.releaseRead => true
  | _ => false

/-- Recognizer for an invocation action. -/
def EmitStep.isInvoke : EmitStep → Bool
  | EmitStep.invoke _ => true
  | _ => false

/-- The invocation loop of emit as a lock-action trace: each listener is
invoked, and the read guard is dropped at whichever return point the loop
reaches (normal exit or the early error return). -/
def invokeStepsFrom (beh : Nat → Event → Except Error Unit) (e : Event) :
    List Nat → List EmitStep
  | [] => [EmitStep.releaseRead]
  | l :: rest =>
    EmitStep.invoke l ::
      (match beh l e with
       | Except.ok _ => invokeStepsFrom beh e rest
       | Except.error _ => [EmitStep.releaseRead])

/-- Lock-action trace of one EventRegistry::emit call (events.rs lines
134-164): acquire the read lock, gather (pure lookups under the lock),
invoke the gathered listeners, drop the guard at function exit. -/
def emitSteps (beh : Nat → Event → Except Error Unit)
    (m : List (String × List Nat)) (e : Event) : List EmitStep :=
  EmitStep.acquireRead :: invokeStepsFrom beh e (emitGather m e)

/-- Number of listener invocations performed while the read lock is still
held, i.e. invoke actions strictly before the first release action. -/
def invokesWhileReadHeld (steps : List EmitStep) : Nat :=
  ((steps.takeWhile (fun s => !s.isRelease)).filter EmitStep.isInvoke).length

/-
Cache provider (cache.rs lines 29-110).  The entry map is an association
list from key to CacheEntry.  Each chrono::Utc::now().timestamp() call in
the source is a distinct explicit Int parameter: get (cache.rs lines
58-70) performs two reads, one inside cleanup_expired (line 49) and one
for the lookup comparison (line 61), passed here as now1 and now2.  The
Result wrapper of the in-memory operations is always Ok in the source;
delete and clear keep it to state that explicitly.
-/

/-- Embedding of CacheEntry (cache.rs lines 35-38). -/
structure CacheEntry where
  value : SJson
  expiresAt : Option Int

/-- The retain predicate of cleanup_expired and the lookup comparison of
get (cache.rs lines 51 and 64): entry.expires_at.map_or(true, expires
greater than now). -/
def entryLive (en : CacheEntry) (now : Int) : Bool :=
  match en.expiresAt with
  | none => true
  | some ex => now < ex

/-- Embedding of MemoryCacheProvider::cleanup_expired (cache.rs lines
47-53): full-scan retain of live entries at the given clock read. -/
def cleanupExpired (c : List (String × CacheEntry)) (now : Int) :
    List (String × CacheEntry) :=
  c.filter (fun kv => entryLive kv.2 now)

/-- Embedding of MemoryCacheProvider::get (cache.rs lines 58-70): reap at
clock read now1, then look the key up and return its value only if live at
the second clock read now2.  Returns the Ok payload and the post-state. -/
def memGet (c : List (String × CacheEntry)) (key : String) (now1 now2 : Int) :
    Option SJson × List (String × CacheEntry) :=
  ((lookupA (cleanupExpired c now1) key).bind fun en =>
      if entryLive en now2 then some en.value else none,
    cleanupExpired c now1)

/-- Embedding of MemoryCacheProvider::set (cache.rs lines 72-87): absolute
expiry now plus ttl seconds when a ttl is given, plain insert, always Ok. -/
def memSet (c : List (String × CacheEntry)) (key : String) (v : SJson)
    (ttl : Option Nat) (now : Int) :
    List (String × CacheEntry) × Except Error Unit :=
  (insertA c key ⟨v, ttl.map (fun seconds => now + (seconds : Int))⟩, Except.ok ())

/-- Embedding of MemoryCacheProvider::delete (cache.rs lines 89-93):
remove the key, always Ok. -/
def memDelete (c : List (String × CacheEntry)) (key : String) :
    List (String × CacheEntry) × Except Error Unit :=
  (eraseA c key, Except.ok ())

/-- Embedding of MemoryCacheProvider::exists (cache.rs lines 95-97):
defined by calling get and testing is_some, with get's state effect. -/
def memExists (c : List (String × CacheEntry)) (key : String) (now1 now2 : Int) :
    Bool × List (String × CacheEntry) :=
  ((memGet c key now1 now2).1.isSome, (memGet c key now1 now2).2)

/-- Embedding of MemoryCacheProvider::clear (cache.rs lines 99-103):
unconditionally empty the map, always Ok; no clock read is involved. -/
def memClear (_c : List (String × CacheEntry)) :
    List (String × CacheEntry) × Except Error Unit :=
  ([], Except.ok ())

/-
Function registry (functions.rs lines 44-93).  Handlers are identified by
Nat ids.  register and register_arc (lines 57-71) call
Arc::get_mut(&mut self.functions).expect("Cannot modify registry with
existing references"): Arc::get_mut yields the map only when the Arc has a
single strong owner, so the number of additional owners (clones of the
registry sharing the same Arc) is part of the embedded state, and a
register call on a shared registry panics.  The function returns unit in
the source; the outcome type below separates normal return from panic.
-/

/-- Embedding of FunctionRegistry state: the name-to-handler map plus the
number of additional Arc owners of that map (0 while exclusively owned,
positive once the registry has been cloned/shared). -/
structure FunctionRegistry where
  functions : List (String × Nat)
  extraOwners : Nat

/-- Outcome of a call to FunctionRegistry::register: either the updated
registry (normal unit return) or a panic with the expect message.  No
constructor carries a typed Error: the source signature returns plain
unit, so no recoverable error can be surfaced. -/
inductive RegisterOutcome where
  | ok (r : FunctionRegistry)
  | panicked (msg : String)

/-- Embedding of FunctionRegistry::register and register_arc
(functions.rs lines 57-71): Arc::get_mut succeeds only on an exclusively
owned registry; on a shared one, expect panics with the source's message. -/
def FunctionRegistry.register (r : FunctionRegistry) (name : String)
    (handler : Nat) : RegisterOutcome :=
  if r.extraOwners = 0 then
    RegisterOutcome.ok ⟨insertA r.functions name handler, r.extraOwners⟩
  else
    RegisterOutcome.panicked "Cannot modify registry with existing references"

/-
Module and SurrealX::build (module.rs lines 11-94, server.rs lines 62-87).
A module stages (name, handler) and (pattern, listener) pairs in order;
build flattens the modules in order, registering each function under the
namespaced key formed by the fixed extension marker, and each listener
verbatim.  During build the function registry is freshly created by
SurrealX::new and never cloned, so its map is exclusively owned and the
register_arc calls inside build take the successful Arc::get_mut branch,
i.e. plain HashMap::insert.  Routes are opaque to the core and are not
part of the claims, so they are not modelled.
-/

/-- Embedding of Module (module.rs lines 11-16), restricted to the parts
build consumes: ordered function and listener registrations. -/
structure Module where
  name : String
  functions : List (String × Nat)
  listeners : List (String × Nat)

/-- The namespaced function registrations build performs, in order
(server.rs lines 64-70): for every module, for every pair, the key is the
extension marker prepended to the name. -/
def moduleFunctionPairs (ms : List Module) : List (String × Nat) :=
  ms.flatMap (fun m => m.functions.map (fun p => ("ext::" ++ p.1, p.2)))

/-- The function registry map produced by build's first loop (server.rs
lines 64-70): successive HashMap inserts over the namespaced pairs. -/
def buildFunctions (ms : List Module) : List (String × Nat) :=
  (moduleFunctionPairs ms).foldl (fun acc p => insertA acc p.1 p.2) []

/-- The event registry produced by build's second loop (server.rs lines
73-77): successive register_arc calls with the verbatim patterns. -/
def buildListeners (ms : List Module) : List (String × List Nat) :=
  (ms.flatMap (fun m => m.listeners)).foldl (fun acc p => pushListener acc p.1 p.2) []

/-- Embedding of BuiltSurrealX (server.rs lines 128-133), without the
opaque router. -/
structure BuiltSurrealX where
  functionRegistry : List (String × Nat)
  eventRegistry : List (String × List Nat)

/-- Embedding of SurrealX::build (server.rs lines 62-87): registers all
module functions and listeners and returns Ok; no error path exists in the
body. -/
def build (ms : List Module) : Except Error BuiltSurrealX :=
  Except.ok ⟨buildFunctions ms, buildListeners ms⟩

theorem getLast?_cons_getD {α : Type} (a : α) (l : List α) :
    (a :: l).getLast? = some ((l.getLast?).getD a) := by
  induction l generalizing a with
  | nil => rfl
  | cons b m ih =>
    rw [List.getLast?_cons_cons, ih b]
    cases hm : (b :: m).getLast? with
    | none => simp [ih b] at hm
    | some x =>
      rw [ih b] at hm
      simp at hm
      simp [hm]

theorem lookupA_foldl_insertA {α : Type} (l : List (String × α))
    (acc : List (String × α)) (k : String) :
    lookupA (l.foldl (fun a p => insertA a p.1 p.2) acc) k =
      match (l.filter (fun p => p.1 = k)).getLast? with
      | some p => some p.2
      | none => lookupA acc k := by
  induction l generalizing acc with
  | nil => simp
  | cons pr rest ih =>
    obtain ⟨q, v⟩ := pr
    rw [List.foldl_cons, ih]
    by_cases h : q = k
    · subst h
      have hf : List.filter (fun p => decide (p.1 = q)) ((q, v) :: rest)
          = (q, v) :: List.filter (fun p => decide (p.1 = q)) rest := by simp
      rw [hf, getLast?_cons_getD]
      cases hl : (rest.filter (fun p => decide (p.1 = q))).getLast? with
      | none => simp [hl, lookupA_insertA]
      | some p => simp [hl]
    · have hf : List.filter (fun p => decide (p.1 = k)) ((q, v) :: rest)
          = List.filter (fun p => decide (p.1 = k)) rest := by simp [h]
      rw [hf]
      cases hl : (rest.filter (fun p => decide (p.1 = k))).getLast? with
      | none =>
        simp only [hl, lookupA_insertA]
        rw [if_neg (fun hc : k = q => h hc.symm)]
      | some p => simp [hl]

theorem entryLive_mono (en : CacheEntry) (now1 now2 : Int) (h : now1 ≤ now2)
    (hl : entryLive en now2 = true) : entryLive en now1 = true := by
  cases hex : en.expiresAt with
  | none => simp [entryLive, hex]
  | some ex =>
    simp [entryLive, hex] at hl ⊢
    omega

theorem lookupA_cleanupExpired (c : List (String × CacheEntry)) (now : Int)
    (k : String) (hnd : (c.map Prod.fst).Nodup) :
    lookupA (cleanupExpired c now) k =
      (lookupA c k).bind (fun en => if entryLive en now then some en else none) := by
  induction c with
  | nil => simp [cleanupExpired, lookupA]
  | cons kv rest ih =>
    obtain ⟨a, en⟩ := kv
    simp only [List.map_cons, List.nodup_cons] at hnd
    by_cases hl : entryLive en now
    · by_cases hak : a = k
      · simp [cleanupExpired, lookupA, hl, hak]
      · simp only [cleanupExpired, List.filter_cons, hl]
        simpa [lookupA, hak, cleanupExpired] using ih hnd.2
    · by_cases hak : a = k
      · subst hak
        have hnone : lookupA rest a = none :=
          lookupA_eq_none_of_not_mem_keysA rest a (by simpa [keysA] using hnd.1)
        simp only [cleanupExpired, List.filter_cons, hl]
        have := ih hnd.2
        simp only [cleanupExpired] at this
        simp [this, lookupA, hnone, hl]
      · simp only [cleanupExpired, List.filter_cons, hl]
        have := ih hnd.2
        simp only [cleanupExpired] at this
        simp [this, lookupA, hak]

/-
Concrete inputs shared by the claim theorems, their witnesses and the
divergence evaluations.
-/

/-- Sample event without a record id (table orders). -/
def evOrdersNone : Event := ⟨EventType.Create, "orders", none, SJson.null, 0⟩

/-- Sample event with record id 123 (table orders). -/
def evOrders123 : Event := ⟨EventType.Create, "orders", some "123", SJson.null, 0⟩

/-- Listener behaviour environment in which every on_event succeeds. -/
def okBeh : Nat → Event → Except Error Unit := fun _ _ => Except.ok ()

/-- Listener behaviour environment in which listener 1 fails with an Event
error and every other listener succeeds. -/
def failAt1Beh : Nat → Event → Except Error Unit := fun l _ =>
  if l = 1 then Except.error (Error.Event "boom") else Except.ok ()

/-- A function registry that has been shared (cloned at least once), so
its Arc has more than one strong owner: the frozen state of the spec. -/
def frozenRegistry : FunctionRegistry := ⟨[], 1⟩

/-- C7: for every Event, the derived pattern() equals table, colon, record
id when the record id is present, and table, colon, star when it is
absent. -/
theorem c7_event_pattern (e : Event) :
    (e.recordId = none → e.pattern = e.table ++ ":*")
    ∧ (∀ id, e.recordId = some id → e.pattern = e.table ++ ":" ++ id) := by
  constructor
  · intro h; simp [Event.pattern, h]
  · intro id h; simp [Event.pattern, h]

/-- Witness for C7 at two concrete events, one per branch of the claim. -/
theorem c7_event_pattern_witness :
    (evOrdersNone.recordId = none ∧ evOrdersNone.pattern = "orders:*")
    ∧ (evOrders123.recordId = some "123" ∧ evOrders123.pattern = "orders:123") :=
  ⟨⟨rfl, (c7_event_pattern evOrdersNone).1 rfl⟩,
   ⟨rfl, (c7_event_pattern evOrders123).2 "123" rfl⟩⟩

/-- C1 divergence evaluation: with a single listener (id 0) registered
under the pattern orders colon star, emitting an event whose record id is
absent (so its own pattern is that same string) invokes the listener twice
in one emit call, because the exact-match pass and the table-wildcard pass
of emit (events.rs lines 142-150) look the same bucket up twice and
concatenate without deduplication.  The claim's at-most-once contract
requires a count of one. -/
theorem c1_wildcard_double_delivery :
    (emit okBeh (buildEReg [("orders:*", 0)]) evOrdersNone).1 = [0, 0]
    ∧ ((emit okBeh (buildEReg [("orders:*", 0)]) evOrdersNone).1).count 0 = 2 :=
  ⟨rfl, rfl⟩

/-- C9 divergence evaluation: the lock-action trace of one emit call on a
registry with one matching listener shows the invocation happening before
the read guard is dropped — the guard acquired at events.rs line 135 lives
to the end of the function, so on_event at line 160 runs while the read
lock is held, and the number of invocations performed under the read lock
is 1, not the 0 the snapshot-then-release-then-invoke claim requires. -/
theorem c9_read_lock_held_across_invocation :
    emitSteps okBeh (buildEReg [("*", 0)]) evOrders123 =
      [EmitStep.acquireRead, EmitStep.invoke 0, EmitStep.releaseRead]
    ∧ invokesWhileReadHeld (emitSteps okBeh (buildEReg [("*", 0)]) evOrders123) = 1 :=
  ⟨rfl, rfl⟩

/-- C2 divergence evaluation: calling register on a registry whose map Arc
has an additional owner (the frozen, shared state) evaluates to the panic
outcome carrying the expect message of functions.rs line 62 — the process
aborts instead of receiving a typed recoverable Error, and the source
signature (plain unit return) has no error path at all. -/
theorem c2_register_after_freeze_panics :
    FunctionRegistry.register frozenRegistry "f" 0 =
      RegisterOutcome.panicked "Cannot modify registry with existing references" :=
  rfl

/-- C4: for every behaviour environment, registry and event, if the k-th
gathered listener fails then emit invokes exactly the listeners up to and
including the k-th and returns that error; if every gathered listener
succeeds, emit invokes them all and returns success. -/
theorem c4_emit_fail_fast (beh : Nat → Event → Except Error Unit)
    (m : List (String × List Nat)) (e : Event) :
    (∀ (k l : Nat) (err : Error),
        (emitGather m e).get? k = some l →
        beh l e = Except.error err →
        (∀ j l', j < k → (emitGather m e).get? j = some l' →
          beh l' e = Except.ok ()) →
        emit beh m e = ((emitGather m e).take (k + 1), Except.error err))
    ∧ ((∀ l ∈ emitGather m e, beh l e = Except.ok ()) →
        emit beh m e = (emitGather m e, Except.ok ())) := by
  constructor
  · intro k l err hget herr hpre
    exact notifyAll_first_error beh e _ k l err hget herr hpre
  · intro h
    exact notifyAll_all_ok beh e _ h

/-- Witness for C4: three listeners under the global pattern, the second
failing; emit invokes listeners 0 and 1 only and returns the failure, and
under the all-success environment it invokes all three and returns Ok. -/
theorem c4_emit_fail_fast_witness :
    emit failAt1Beh (buildEReg [("*", 0), ("*", 1), ("*", 2)]) evOrders123
      = ([0, 1], Except.error (Error.Event "boom"))
    ∧ emit okBeh (buildEReg [("*", 0), ("*", 1), ("*", 2)]) evOrders123
      = ([0, 1, 2], Except.ok ()) := by
  refine ⟨(c4_emit_fail_fast failAt1Beh (buildEReg [("*", 0), ("*", 1), ("*", 2)])
        evOrders123).1 1 1 (Error.Event "boom") rfl rfl ?_,
      (c4_emit_fail_fast okBeh (buildEReg [("*", 0), ("*", 1), ("*", 2)])
        evOrders123).2 ?_⟩
  · intro j l' hj hget
    have hj0 : j = 0 := by omega
    subst hj0
    have hg : (emitGather (buildEReg [("*", 0), ("*", 1), ("*", 2)])
        evOrders123).get? 0 = some 0 := rfl
    rw [hg] at hget
    have : l' = 0 := (Option.some.inj hget).symm
    subst this
    rfl
  · intro l _
    rfl

theorem count_three_filter_groups (regs : List (String × Nat))
    (P1 P2 P3 : String) (l : Nat)
    (h12 : P1 ≠ P2) (h13 : P1 ≠ P3) (h23 : P2 ≠ P3) :
    (((regs.filter (fun pr => pr.1 = P1)).map Prod.snd)
        ++ ((regs.filter (fun pr => pr.1 = P2)).map Prod.snd)
        ++ ((regs.filter (fun pr => pr.1 = P3)).map Prod.snd)).count l
      = (regs.filter
          (fun pr => (pr.1 = P1 ∨ pr.1 = P2 ∨ pr.1 = P3) ∧ pr.2 = l)).length := by
  have h21 : P2 ≠ P1 := Ne.symm h12
  have h31 : P3 ≠ P1 := Ne.symm h13
  have h32 : P3 ≠ P2 := Ne.symm h23
  induction regs with
  | nil => simp
  | cons pr rest ih =>
    obtain ⟨q, v⟩ := pr
    rw [List.count_append, List.count_append] at ih ⊢
    simp only [List.filter_cons]
    by_cases h1 : q = P1
    · have h2 : ¬q = P2 := fun hc => h12 (h1.symm.trans hc)
      have h3 : ¬q = P3 := fun hc => h13 (h1.symm.trans hc)
      by_cases hv : v = l <;>
        simp [h1, h2, h3, hv, h12, h13, h23, h21, h31, h32, beq_iff_eq,
          List.count_cons] at ih ⊢ <;>
        omega
    · by_cases h2 : q = P2
      · have h3 : ¬q = P3 := fun hc => h23 (h2.symm.trans hc)
        by_cases hv : v = l <;>
          simp [h1, h2, h3, hv, h12, h13, h23, h21, h31, h32, beq_iff_eq,
            List.count_cons] at ih ⊢ <;>
          omega
      · by_cases h3 : q = P3
        · by_cases hv : v = l <;>
            simp [h1, h2, h3, hv, h12, h13, h23, h21, h31, h32, beq_iff_eq,
              List.count_cons] at ih ⊢ <;>
            omega
        · simp [h1, h2, h3, beq_iff_eq, List.count_cons] at ih ⊢
          omega

/-- C3: for every registration sequence and every event whose record id is
present, with the exact, table-wildcard and global patterns pairwise
distinct and every listener succeeding, one emit call invokes exactly the
exact-match group, then the table-wildcard group, then the global group,
each group in registration order, returns success, and each registration
under any of the three patterns is invoked exactly once. -/
theorem c3_emit_three_pass_order (regs : List (String × Nat))
    (beh : Nat → Event → Except Error Unit) (e : Event) (id : String)
    (_hid : e.recordId = some id)
    (h12 : e.pattern ≠ e.table ++ ":*")
    (h13 : e.pattern ≠ "*")
    (h23 : e.table ++ ":*" ≠ "*")
    (hok : ∀ l, beh l e = Except.ok ()) :
    (emit beh (buildEReg regs) e).1
        = ((regs.filter (fun pr => pr.1 = e.pattern)).map Prod.snd)
          ++ ((regs.filter (fun pr => pr.1 = e.table ++ ":*")).map Prod.snd)
          ++ ((regs.filter (fun pr => pr.1 = "*")).map Prod.snd)
    ∧ (emit beh (buildEReg regs) e).2 = Except.ok ()
    ∧ ∀ l : Nat,
        ((emit beh (buildEReg regs) e).1).count l
          = (regs.filter (fun pr =>
              (pr.1 = e.pattern ∨ pr.1 = e.table ++ ":*" ∨ pr.1 = "*")
                ∧ pr.2 = l)).length := by
  have hgather : emitGather (buildEReg regs) e
      = ((regs.filter (fun pr => pr.1 = e.pattern)).map Prod.snd)
        ++ ((regs.filter (fun pr => pr.1 = e.table ++ ":*")).map Prod.snd)
        ++ ((regs.filter (fun pr => pr.1 = "*")).map Prod.snd) := by
    simp [emitGather, findListeners_buildEReg]
  have hemit : emit beh (buildEReg regs) e
      = (emitGather (buildEReg regs) e, Except.ok ()) :=
    notifyAll_all_ok beh e _ (fun l _ => hok l)
  refine ⟨?_, ?_, ?_⟩
  · rw [hemit]; exact hgather
  · rw [hemit]
  · intro l
    rw [hemit]
    show (emitGather (buildEReg regs) e).count l = _
    rw [hgather]
    exact count_three_filter_groups regs _ _ _ l h12 h13 h23

/-- Witness for C3: registrations under orders colon 123, orders colon
star and the global star, emitted for the event with record id 123: the
trace is exact group, wildcard group, global group in registration order,
the result is Ok, and listener 5 (registered once, under the wildcard) is
invoked exactly once. -/
theorem c3_emit_three_pass_order_witness :
    (emit okBeh (buildEReg
        [("orders:*", 5), ("orders:123", 4), ("*", 6), ("orders:123", 7)])
      evOrders123).1 = [4, 7, 5, 6]
    ∧ (emit okBeh (buildEReg
        [("orders:*", 5), ("orders:123", 4), ("*", 6), ("orders:123", 7)])
      evOrders123).2 = Except.ok ()
    ∧ ((emit okBeh (buildEReg
        [("orders:*", 5), ("orders:123", 4), ("*", 6), ("orders:123", 7)])
      evOrders123).1).count 5 = 1 := by
  have h := c3_emit_three_pass_order
    [("orders:*", 5), ("orders:123", 4), ("*", 6), ("orders:123", 7)]
    okBeh evOrders123 "123" rfl (by decide) (by decide) (by decide)
    (fun _ => rfl)
  exact ⟨h.1, h.2.1, h.2.2 5⟩

/-- C5 counterexample to the single-consistent-now clause: in the get call
whose two clock reads are 4 (reap sweep) and then 6 (lookup comparison),
on a store holding one entry with expiry 5, the lookup comparison treats
the entry as expired (the call returns none) while the reap sweep kept it
(the post-state still holds the entry).  Under one single consistent now
this combination is impossible: the single-read runs at 4 and at 6 return
the value with the entry kept, respectively return none with the entry
reaped, and the two-read run matches neither. -/
theorem c5_two_clock_reads_counterexample :
    (memGet [("k", ⟨SJson.str "v", some 5⟩)] "k" 4 6).1 = none
    ∧ (memGet [("k", ⟨SJson.str "v", some 5⟩)] "k" 4 6).2
        = [("k", ⟨SJson.str "v", some 5⟩)]
    ∧ (memGet [("k", ⟨SJson.str "v", some 5⟩)] "k" 4 4).1 = some (SJson.str "v")
    ∧ (memGet [("k", ⟨SJson.str "v", some 5⟩)] "k" 4 4).2
        = [("k", ⟨SJson.str "v", some 5⟩)]
    ∧ (memGet [("k", ⟨SJson.str "v", some 5⟩)] "k" 6 6).1 = none
    ∧ (memGet [("k", ⟨SJson.str "v", some 5⟩)] "k" 6 6).2 = [] :=
  ⟨rfl, rfl, rfl, rfl, rfl, rfl⟩

/-- C5 amended: get takes two clock reads, the sweep's first; with a
monotone clock (sweep read at most lookup read) and a well-formed map, the
returned value is governed by the lookup read alone: get returns the
stored value if and only if an entry for the key is present in the
pre-state and its expiry is absent or strictly greater than the lookup
read; consequently an entry whose expiry has passed is never observed, and
an entry set with no ttl is returned after arbitrarily long elapsed
time. -/
theorem c5_get_governed_by_lookup_read (c : List (String × CacheEntry))
    (key : String) (now1 now2 : Int) (hmono : now1 ≤ now2)
    (hnd : (c.map Prod.fst).Nodup) :
    ((memGet c key now1 now2).1
        = (lookupA c key).bind
            (fun en => if entryLive en now2 then some en.value else none))
    ∧ (∀ v, lookupA c key = some ⟨v, none⟩ → (memGet c key now1 now2).1 = some v)
    ∧ (∀ v ex, lookupA c key = some ⟨v, some ex⟩ → ex ≤ now2 →
        (memGet c key now1 now2).1 = none) := by
  have hmain : (memGet c key now1 now2).1
      = (lookupA c key).bind
          (fun en => if entryLive en now2 then some en.value else none) := by
    show ((lookupA (cleanupExpired c now1) key).bind
        (fun en => if entryLive en now2 then some en.value else none)) = _
    rw [lookupA_cleanupExpired c now1 key hnd]
    cases hlk : lookupA c key with
    | none => simp
    | some en =>
      by_cases hl2 : entryLive en now2
      · have hl1 : entryLive en now1 := entryLive_mono en now1 now2 hmono hl2
        simp [hl1, hl2]
      · by_cases hl1 : entryLive en now1 <;> simp [hl1, hl2]
  refine ⟨hmain, ?_, ?_⟩
  · intro v hv
    rw [hmain, hv]
    simp [entryLive]
  · intro v ex hv hle
    rw [hmain, hv]
    simp [entryLive]
    omega

/-- Witness for C5 amended at a concrete store: an entry with no ttl is
still returned with the lookup read a million ticks later. -/
theorem c5_get_governed_by_lookup_read_witness :
    (0 : Int) ≤ 1000000
    ∧ (memGet [("k", ⟨SJson.str "v", none⟩), ("e", ⟨SJson.str "w", some 5⟩)]
        "k" 0 1000000).1 = some (SJson.str "v") :=
  ⟨by norm_num,
    (c5_get_governed_by_lookup_read
        [("k", ⟨SJson.str "v", none⟩), ("e", ⟨SJson.str "w", some 5⟩)]
        "k" 0 1000000 (by norm_num) (by decide)).2.1 (SJson.str "v") rfl⟩

/-- C8: exists returns true exactly when get on the same state returns a
value, and performs the same full reap (identical post-state); set and
delete leave every other key's entry, expired or not, exactly as it was,
and clear empties the map unconditionally (its embedding consults no
clock, so none of the three reaps by expiry). -/
theorem c8_exists_via_get_no_reap_elsewhere (c : List (String × CacheEntry))
    (key : String) (now1 now2 : Int) (v : SJson) (ttl : Option Nat) (now : Int) :
    ((memExists c key now1 now2).1 = true ↔
        ∃ w, (memGet c key now1 now2).1 = some w)
    ∧ (memExists c key now1 now2).2 = (memGet c key now1 now2).2
    ∧ (∀ k', k' ≠ key → lookupA (memSet c key v ttl now).1 k' = lookupA c k')
    ∧ (∀ k', k' ≠ key → lookupA (memDelete c key).1 k' = lookupA c k')
    ∧ (memClear c).1 = [] := by
  refine ⟨?_, rfl, ?_, ?_, rfl⟩
  · simp [memExists, Option.isSome_iff_exists]
  · intro k' hk
    show lookupA (insertA c key _) k' = _
    rw [lookupA_insertA]
    simp [hk]
  · intro k' hk
    exact lookupA_eraseA_ne c key k' hk

/-- Witness for C8 at a concrete store: the frame conjuncts hold for the
other key, whose entry is already expired at the set time. -/
theorem c8_exists_via_get_no_reap_elsewhere_witness :
    ("a" : String) ≠ "k"
    ∧ lookupA (memSet [("k", ⟨SJson.num 0, none⟩), ("a", ⟨SJson.num 2, some 3⟩)]
        "k" (SJson.num 1) none 9).1 "a" = some ⟨SJson.num 2, some 3⟩
    ∧ lookupA (memDelete [("k", ⟨SJson.num 0, none⟩), ("a", ⟨SJson.num 2, some 3⟩)]
        "k").1 "a" = some ⟨SJson.num 2, some 3⟩ := by
  have h := c8_exists_via_get_no_reap_elsewhere
    [("k", ⟨SJson.num 0, none⟩), ("a", ⟨SJson.num 2, some 3⟩)]
    "k" 0 0 (SJson.num 1) none 9
  refine ⟨by decide, ?_, ?_⟩
  · rw [h.2.2.1 "a" (by decide)]; rfl
  · rw [h.2.2.2.1 "a" (by decide)]; rfl

/-- C10: delete always returns success, even when the key is absent; the
post-state has no entry for the key, every other key's entry (value and
expiry) is unchanged, and deleting the same key twice leaves the same
state as deleting it once. -/
theorem c10_delete_frame (c : List (String × CacheEntry)) (key : String) :
    (memDelete c key).2 = Except.ok ()
    ∧ lookupA (memDelete c key).1 key = none
    ∧ (∀ k', k' ≠ key → lookupA (memDelete c key).1 k' = lookupA c k')
    ∧ (memDelete (memDelete c key).1 key).1 = (memDelete c key).1 :=
  ⟨rfl, lookupA_eraseA_self c key,
    fun k' hk => lookupA_eraseA_ne c key k' hk,
    eraseA_eraseA c key⟩

/-- Witness for C10 at a concrete store — including a delete of an absent
key, which still succeeds and leaves the other entry alone. -/
theorem c10_delete_frame_witness :
    (memDelete [("a", ⟨SJson.num 2, some 3⟩)] "missing").2 = Except.ok ()
    ∧ ("a" : String) ≠ "missing"
    ∧ lookupA (memDelete [("a", ⟨SJson.num 2, some 3⟩)] "missing").1 "a"
        = some ⟨SJson.num 2, some 3⟩ := by
  have h := c10_delete_frame [("a", ⟨SJson.num 2, some 3⟩)] "missing"
  refine ⟨h.1, by decide, ?_⟩
  rw [h.2.2.1 "a" (by decide)]; rfl

theorem filter_key_ne_nil_iff_mem_map_fst (pairs : List (String × Nat))
    (key : String) :
    (pairs.filter (fun p => p.1 = key)) ≠ [] ↔ key ∈ pairs.map Prod.fst := by
  induction pairs with
  | nil => simp
  | cons p rest ih =>
    obtain ⟨a, b⟩ := p
    by_cases h : a = key
    · simp [List.filter_cons, h]
    · have h2 : ¬key = a := fun hc => h hc.symm
      simp [List.filter_cons, h, h2, ih]

/-- C6: build registers every module function pair under its namespaced
extension key, returns Ok with no collision error; the built registry maps
each key to the handler of the last registration with that key (module
order, then in-module order), and its key list contains exactly the
namespaced names that some module registered. -/
theorem c6_build_namespaced_last_wins (ms : List Module) (key : String) :
    build ms = Except.ok ⟨buildFunctions ms, buildListeners ms⟩
    ∧ lookupA (buildFunctions ms) key
        = ((moduleFunctionPairs ms).filter (fun p => p.1 = key)).getLast?.map
            Prod.snd
    ∧ (key ∈ keysA (buildFunctions ms) ↔
        key ∈ (moduleFunctionPairs ms).map Prod.fst) := by
  have hlast : lookupA (buildFunctions ms) key
      = ((moduleFunctionPairs ms).filter (fun p => p.1 = key)).getLast?.map
          Prod.snd := by
    show lookupA ((moduleFunctionPairs ms).foldl
        (fun acc p => insertA acc p.1 p.2) []) key = _
    rw [lookupA_foldl_insertA]
    cases hl : ((moduleFunctionPairs ms).filter
        (fun p => decide (p.1 = key))).getLast? with
    | none => simp [hl, lookupA]
    | some p => simp [hl]
  refine ⟨rfl, hlast, ?_⟩
  rw [← lookupA_isSome_iff_mem_keysA, hlast,
    ← filter_key_ne_nil_iff_mem_map_fst]
  constructor
  · intro hsome hc
    rw [hc] at hsome
    simp at hsome
  · intro hne
    cases hl : ((moduleFunctionPairs ms).filter
        (fun p => decide (p.1 = key))).getLast? with
    | none => exact absurd (List.getLast?_eq_none_iff.mp hl) hne
    | some p => simp [hl]

end SurrealX
